import Mathlib

/-!
Shallow embedding of `iss/error_model.py` (InSilicoSeq error models).

Conventions of the embedding:

* Python float arithmetic is modelled by real-number arithmetic (`ℝ`).
* The random sources (`random.random`, `random.choice`, `np.random.normal`,
  `np.random.choice`) are modelled as explicit oracle streams passed to each
  function; the value drawn at loop iteration `i` is the stream at index `i`.
  For `choice`-style draws only the drawn element matters to the claims, so
  the draw is modelled as an arbitrary selection index into the candidate
  list; the weight vector handed to `np.random.choice` does not constrain it.
* The numpy count arrays of the substitution matrices are modelled by `ℚ`.
  Division by a zero denominator in `ℚ` yields the junk value `0`, mirroring
  the NaN that numpy produces for `0 / 0` (with Python integers the same line
  raises `ZeroDivisionError`); in neither case is a dedicated error raised.
* A `SeqRecord` is reduced to the two members the code touches: `seq` and the
  `phred_quality` entry of `letter_annotations`.
-/

/-- Python `phred_to_prob(q)`: `p = 10 ** (-q / 10); return 1 - p`. -/
noncomputable def phred_to_prob (q : ℝ) : ℝ := 1 - (10 : ℝ) ^ (-q / 10)

/-- Python `prob_to_phred(p)`: `q = int(round(-10 * np.log10(1 - p))); return q`. -/
noncomputable def prob_to_phred (p : ℝ) : ℤ := round (-10 * Real.logb 10 (1 - p))

/-- The nucleotide alphabet both error models handle. -/
def acgt : List Char := ['A', 'T', 'C', 'G']

/-- The two members of a Biopython record that the error models touch:
`record.seq` and the `phred_quality` entry of the per-letter annotation dict. -/
structure SeqRecord where
  seq : List Char
  phred_quality : List ℤ
deriving DecidableEq

/-- Python dict `{'A': ['T','C','G'], 'T': ['A','C','G'], 'C': ['A','T','G'],
'G': ['A','T','C']}` from `BasicErrorModel.mut_sequence`; looking up a missing
key raises `KeyError`, modelled as `none`. -/
def basic_nucl_choices (nucl : Char) : Option (List Char) :=
  if nucl = 'A' then some ['T', 'C', 'G']
  else if nucl = 'T' then some ['A', 'C', 'G']
  else if nucl = 'C' then some ['A', 'T', 'G']
  else if nucl = 'G' then some ['A', 'T', 'C']
  else none

/-- Python `KernelDensityErrorModel.subst_matrix_to_choices`: from the raw
16-element substitution count row at one position, build the dict mapping each
source base to the three candidate target bases and their normalized counts.
The Python slices `[1:4]`, `[5:8]`, `[9:12]`, `[13:]` become `drop`/`take`;
a key outside ATCG yields `none` (`KeyError`). -/
def subst_matrix_to_choices (v : List ℚ) (nucl : Char) : Option (List Char × List ℚ) :=
  let sumA := ((v.drop 1).take 3).sum
  let sumT := ((v.drop 5).take 3).sum
  let sumC := ((v.drop 9).take 3).sum
  let sumG := (v.drop 13).sum
  if nucl = 'A' then some (['T', 'C', 'G'], ((v.drop 1).take 3).map (fun count => count / sumA))
  else if nucl = 'T' then some (['A', 'C', 'G'], ((v.drop 5).take 3).map (fun count => count / sumT))
  else if nucl = 'C' then some (['A', 'T', 'G'], ((v.drop 9).take 3).map (fun count => count / sumC))
  else if nucl = 'G' then some (['A', 'T', 'C'], (v.drop 13).map (fun count => count / sumG))
  else none

open Classical in
/-- One iteration of the `BasicErrorModel.mut_sequence` loop at position `i`:
mutate exactly when `random.random() > phred_to_prob(qual)`.  `u` is the
`random.random` stream, `c` selects the `random.choice` outcome. -/
noncomputable def basicStep (u : ℕ → ℝ) (c : ℕ → Fin 3) (i : ℕ) (p : Char × ℤ) :
    Except String Char :=
  if u i > phred_to_prob (p.2 : ℝ) then
    match basic_nucl_choices p.1 with
    | some l => Except.ok (l.getD (c i).val p.1)
    | none => Except.error "KeyError"
  else Except.ok p.1

open Classical in
/-- One iteration of the `KernelDensityErrorModel.mut_sequence` loop.  In the
source the choices dict is rebuilt from the matrix row at every position and
consulted only when the draw indicates a miscall; building the dict has no
observable effect, so only the consulted entry appears here. -/
noncomputable def kdeStep (sm : ℕ → List ℚ) (u : ℕ → ℝ) (c : ℕ → Fin 3) (i : ℕ)
    (p : Char × ℤ) : Except String Char :=
  if u i > phred_to_prob (p.2 : ℝ) then
    match subst_matrix_to_choices (sm i) p.1 with
    | some pr => Except.ok (pr.1.getD (c i).val p.1)
    | none => Except.error "KeyError"
  else Except.ok p.1

/-- The position-indexed mutation loop shared by both `mut_sequence` variants,
threading the `KeyError` a non-ATCG base would raise. -/
def mutGo (step : ℕ → Char × ℤ → Except String Char) :
    ℕ → List (Char × ℤ) → Except String (List Char)
  | _, [] => Except.ok []
  | i, p :: rest =>
    (step i p).bind (fun b => (mutGo step (i + 1) rest).map (fun bs => b :: bs))

/-- Pure form of the mutation loop, used to state what `mutGo` returns when
every base is in ATCG. -/
def mutGoPure (f : ℕ → Char × ℤ → Char) : ℕ → List (Char × ℤ) → List Char
  | _, [] => []
  | i, p :: rest => f i p :: mutGoPure f (i + 1) rest

open Classical in
/-- Value computed by `basicStep` when the lookup cannot fail. -/
noncomputable def basicStepPure (u : ℕ → ℝ) (c : ℕ → Fin 3) (i : ℕ) (p : Char × ℤ) : Char :=
  if u i > phred_to_prob (p.2 : ℝ) then ((basic_nucl_choices p.1).getD []).getD (c i).val p.1
  else p.1

open Classical in
/-- Value computed by `kdeStep` when the lookup cannot fail. -/
noncomputable def kdeStepPure (sm : ℕ → List ℚ) (u : ℕ → ℝ) (c : ℕ → Fin 3) (i : ℕ)
    (p : Char × ℤ) : Char :=
  if u i > phred_to_prob (p.2 : ℝ) then
    (((subst_matrix_to_choices (sm i) p.1).getD ([], [])).1).getD (c i).val p.1
  else p.1

/-- Python `BasicErrorModel.__init__`: `self.read_length = 125`. -/
def BasicErrorModel.read_length : ℕ := 125

/-- Python `BasicErrorModel.__init__`: `self.insert_size = 200`. -/
def BasicErrorModel.insert_size : ℕ := 200

/-- Python `BasicErrorModel.__init__`: `self.quality = 30`. -/
def BasicErrorModel.quality : ℕ := 30

/-- Python `BasicErrorModel.gen_phred_scores`: clamp each normal draw at
`0.9999` and convert to a phred score.  `normal mean sigma i` is the
`np.random.normal(mean, sigma, read_length)` oracle at index `i`. -/
noncomputable def BasicErrorModel.gen_phred_scores (normal : ℝ → ℝ → ℕ → ℝ)
    (mean_quality : ℝ) : List ℤ :=
  let norm := (List.range BasicErrorModel.read_length).map
    (fun i => min (normal mean_quality 0.01 i) 0.9999)
  norm.map (fun p => prob_to_phred p)

/-- Python `BasicErrorModel.introduce_error_scores`: attach generated scores;
the orientation argument is accepted and ignored. -/
noncomputable def BasicErrorModel.introduce_error_scores (normal : ℝ → ℝ → ℕ → ℝ)
    (record : SeqRecord) (orientation : String) : SeqRecord :=
  { record with phred_quality :=
      BasicErrorModel.gen_phred_scores normal (phred_to_prob (BasicErrorModel.quality : ℝ)) }

/-- Python `BasicErrorModel.mut_sequence`: the orientation argument is
accepted and ignored; `zip` truncates to the shorter of sequence and quality
list, so positions past the quality list come back unchanged. -/
noncomputable def BasicErrorModel.mut_sequence (u : ℕ → ℝ) (c : ℕ → Fin 3)
    (record : SeqRecord) (orientation : String) : Except String (List Char) :=
  (mutGo (basicStep u c) 0 (record.seq.zip record.phred_quality)).map
    (fun l => l ++ record.seq.drop record.phred_quality.length)

/-- Python `KernelDensityErrorModel.gen_phred_scores` over the per-position
histograms `(values, indices)`: the weights are the sum-normalized values and
one bin value is drawn from `indices[1:]` and rounded; the draw is modelled by
the selector `s`. -/
noncomputable def KernelDensityErrorModel.gen_phred_scores (s : ℕ → ℕ) :
    ℕ → List (List ℝ × List ℝ) → List ℤ
  | _, [] => []
  | i, hist :: rest =>
    round ((hist.2.drop 1).getD (s i) 0) ::
      KernelDensityErrorModel.gen_phred_scores s (i + 1) rest

/-- Python `KernelDensityErrorModel.introduce_error_scores`: dispatch on the
orientation string; any other value only prints `bad orientation. Fatal`
(the `# add an exit here` comment is unrealized) and returns the record
unchanged, with no annotation and no exception. -/
noncomputable def KernelDensityErrorModel.introduce_error_scores
    (quality_hist_forward quality_hist_reverse : List (List ℝ × List ℝ)) (s : ℕ → ℕ)
    (record : SeqRecord) (orientation : String) : SeqRecord :=
  if orientation = "forward" then
    { record with phred_quality :=
        KernelDensityErrorModel.gen_phred_scores s 0 quality_hist_forward }
  else if orientation = "reverse" then
    { record with phred_quality :=
        KernelDensityErrorModel.gen_phred_scores s 0 quality_hist_reverse }
  else record

/-- Python `KernelDensityErrorModel.mut_sequence`: dispatch on orientation;
for any other string the code only prints `this is bad` and falls through, so
the first loop iteration reads the never-assigned local `subst_matrix` and
raises `UnboundLocalError`; when the loop body never runs (empty zip) the
sequence comes back unchanged instead. -/
noncomputable def KernelDensityErrorModel.mut_sequence
    (subst_matrix_forward subst_matrix_reverse : ℕ → List ℚ) (u : ℕ → ℝ) (c : ℕ → Fin 3)
    (record : SeqRecord) (orientation : String) : Except String (List Char) :=
  if orientation = "forward" then
    (mutGo (kdeStep subst_matrix_forward u c) 0 (record.seq.zip record.phred_quality)).map
      (fun l => l ++ record.seq.drop record.phred_quality.length)
  else if orientation = "reverse" then
    (mutGo (kdeStep subst_matrix_reverse u c) 0 (record.seq.zip record.phred_quality)).map
      (fun l => l ++ record.seq.drop record.phred_quality.length)
  else if record.seq.zip record.phred_quality = [] then Except.ok record.seq
  else Except.error "UnboundLocalError"

/-- Call-level view of `BasicErrorModel.mut_sequence` exposing the record
state after the call: `record.seq.tomutable()` allocates a fresh mutable copy,
every write of the loop targets that copy, and the annotation dict is only
read, so the record passes through untouched. -/
noncomputable def BasicErrorModel.mut_sequence_effect (u : ℕ → ℝ) (c : ℕ → Fin 3)
    (record : SeqRecord) (orientation : String) : SeqRecord × Except String (List Char) :=
  (record, BasicErrorModel.mut_sequence u c record orientation)

/-- Call-level view of `KernelDensityErrorModel.mut_sequence`; as for the
basic model, all writes go to the fresh mutable copy of `record.seq`. -/
noncomputable def KernelDensityErrorModel.mut_sequence_effect
    (subst_matrix_forward subst_matrix_reverse : ℕ → List ℚ) (u : ℕ → ℝ) (c : ℕ → Fin 3)
    (record : SeqRecord) (orientation : String) : SeqRecord × Except String (List Char) :=
  (record, KernelDensityErrorModel.mut_sequence subst_matrix_forward subst_matrix_reverse
    u c record orientation)

/-- The target bases offered for each source base, in the order of the lists
appearing in the code: `A ↦ [T,C,G]`, `T ↦ [A,C,G]`, `C ↦ [A,T,G]`,
`G ↦ [A,T,C]`. -/
def claim_targets : Char → List Char
  | 'A' => ['T', 'C', 'G']
  | 'T' => ['A', 'C', 'G']
  | 'C' => ['A', 'T', 'G']
  | 'G' => ['A', 'T', 'C']
  | _ => []

/-- Modelled from the claim's words: the position of the `src → tgt` count in
a 16-element vector laid out 4x4 row-major over A,T,C,G. -/
def rowMajorPos : Char → Char → ℕ
  | 'A', 'A' => 0
  | 'A', 'T' => 1
  | 'A', 'C' => 2
  | 'A', 'G' => 3
  | 'T', 'A' => 4
  | 'T', 'T' => 5
  | 'T', 'C' => 6
  | 'T', 'G' => 7
  | 'C', 'A' => 8
  | 'C', 'T' => 9
  | 'C', 'C' => 10
  | 'C', 'G' => 11
  | 'G', 'A' => 12
  | 'G', 'T' => 13
  | 'G', 'C' => 14
  | 'G', 'G' => 15
  | _, _ => 16

/-- The layout the code's slices actually follow: each source base owns one
block of four, with the same-base count first (positions 0, 4, 8, 12) and the
three transition counts after it in the order of `claim_targets`. -/
def blockFirstPos : Char → Char → ℕ
  | 'A', 'A' => 0
  | 'A', 'T' => 1
  | 'A', 'C' => 2
  | 'A', 'G' => 3
  | 'T', 'T' => 4
  | 'T', 'A' => 5
  | 'T', 'C' => 6
  | 'T', 'G' => 7
  | 'C', 'C' => 8
  | 'C', 'A' => 9
  | 'C', 'T' => 10
  | 'C', 'G' => 11
  | 'G', 'G' => 12
  | 'G', 'A' => 13
  | 'G', 'T' => 14
  | 'G', 'C' => 15
  | _, _ => 16

/-- Modelled from the claim's words: the per-target probabilities for source
base `src` read off a vector `v` through the layout `posOf`: take the three
counts at the off-diagonal positions of the row of `src` and normalize them by
their sum. -/
def layoutRowChoices (posOf : Char → Char → ℕ) (v : List ℚ) (src : Char) :
    List Char × List ℚ :=
  let counts := (claim_targets src).map (fun t => v.getD (posOf src t) 0)
  (claim_targets src, counts.map (fun cnt => cnt / counts.sum))

/-- Count row with entries 1, 1, 1 at indices 5, 6, 7. -/
def cexRowT1 : List ℚ := [0, 0, 0, 0, 0, 1, 1, 1, 0, 0, 0, 0, 0, 0, 0, 0]

/-- As `cexRowT1` but with entry 2 at index 5, the row-major position of the
diagonal count T→T; the two rows differ only there. -/
def cexRowT2 : List ℚ := [0, 0, 0, 0, 0, 2, 1, 1, 0, 0, 0, 0, 0, 0, 0, 0]

/-- Count row with a nonzero entry at index 4, the row-major position of the
off-diagonal count T→A. -/
def cexRowT3 : List ℚ := [0, 0, 0, 0, 1, 2, 1, 1, 0, 0, 0, 0, 0, 0, 0, 0]

/-- C2: for every integer phred score `q` with `0 ≤ q ≤ 60`, the round trip
`prob_to_phred (phred_to_prob q)` returns exactly `q`. -/
theorem prob_to_phred_roundtrip (q : ℤ) (h0 : 0 ≤ q) (h60 : q ≤ 60) :
    prob_to_phred (phred_to_prob (q : ℝ)) = q := by
  unfold prob_to_phred phred_to_prob
  rw [sub_sub_cancel, Real.logb_rpow (by norm_num) (by norm_num),
    show (-10 : ℝ) * (-(q : ℝ) / 10) = (q : ℝ) by ring]
  exact round_intCast q

/-- Witness for the round-trip theorem at the concrete score `q = 30`. -/
theorem prob_to_phred_roundtrip_witness :
    (0 : ℤ) ≤ 30 ∧ (30 : ℤ) ≤ 60 ∧ prob_to_phred (phred_to_prob ((30 : ℤ) : ℝ)) = 30 :=
  ⟨by decide, by decide, prob_to_phred_roundtrip 30 (by decide) (by decide)⟩

/-- C10: `phred_to_prob` is strictly monotone on nonnegative scores, sends `0`
to `0`, and its value at any nonnegative score lies in the interval `[0, 1)`. -/
theorem phred_to_prob_monotone_bounds (q₁ q₂ : ℝ) (h0 : 0 ≤ q₁) (h12 : q₁ < q₂) :
    phred_to_prob 0 = 0 ∧ phred_to_prob q₁ < phred_to_prob q₂ ∧
      0 ≤ phred_to_prob q₁ ∧ phred_to_prob q₁ < 1 := by
  unfold phred_to_prob
  refine ⟨?_, ?_, ?_, ?_⟩
  · rw [show (-(0 : ℝ) / 10) = 0 by norm_num, Real.rpow_zero]
    norm_num
  · have h : (10 : ℝ) ^ (-q₂ / 10) < (10 : ℝ) ^ (-q₁ / 10) :=
      Real.rpow_lt_rpow_of_exponent_lt (by norm_num) (by linarith)
    linarith
  · have h : (10 : ℝ) ^ (-q₁ / 10) ≤ 1 :=
      Real.rpow_le_one_of_one_le_of_nonpos (by norm_num) (by linarith)
    linarith
  · have h : (0 : ℝ) < (10 : ℝ) ^ (-q₁ / 10) := Real.rpow_pos_of_pos (by norm_num) _
    linarith

/-- Witness for monotonicity and bounds at the concrete scores `0 < 10`. -/
theorem phred_to_prob_monotone_bounds_witness :
    (0 : ℝ) ≤ 0 ∧ (0 : ℝ) < 10 ∧
      (phred_to_prob 0 = 0 ∧ phred_to_prob 0 < phred_to_prob 10 ∧
        0 ≤ phred_to_prob 0 ∧ phred_to_prob 0 < 1) :=
  ⟨le_refl 0, by norm_num, phred_to_prob_monotone_bounds 0 10 (le_refl 0) (by norm_num)⟩

theorem mutGo_eq_ok {step : ℕ → Char × ℤ → Except String Char} {f : ℕ → Char × ℤ → Char}
    (l : List (Char × ℤ)) (h : ∀ i p, p ∈ l → step i p = Except.ok (f i p)) :
    ∀ i, mutGo step i l = Except.ok (mutGoPure f i l) := by
  induction l with
  | nil => intro i; rfl
  | cons p rest ih =>
    intro i
    rw [mutGo, mutGoPure, h i p (List.mem_cons_self p rest),
      ih (fun j q hq => h j q (List.mem_cons_of_mem p hq)) (i + 1)]
    rfl

theorem length_mutGoPure (f : ℕ → Char × ℤ → Char) (l : List (Char × ℤ)) :
    ∀ i, (mutGoPure f i l).length = l.length := by
  induction l with
  | nil => intro i; rfl
  | cons p rest ih => intro i; simp [mutGoPure, ih (i + 1)]

theorem getD_mutGoPure (f : ℕ → Char × ℤ → Char) (l : List (Char × ℤ)) (d : Char) :
    ∀ i j, j < l.length → (mutGoPure f i l).getD j d = f (i + j) (l.getD j ('A', 0)) := by
  induction l with
  | nil => intro i j hj; simp at hj
  | cons p rest ih =>
    intro i j hj
    cases j with
    | zero => simp [mutGoPure, List.getD]
    | succ j =>
      have h2 : j < rest.length := by simpa using hj
      have h3 := ih (i + 1) j h2
      simp only [mutGoPure, List.getD_cons_succ]
      rw [h3, show i + 1 + j = i + (j + 1) by omega]

theorem mem_mutGoPure {f : ℕ → Char × ℤ → Char} {P : Char → Prop}
    (l : List (Char × ℤ)) (hf : ∀ i p, p ∈ l → P (f i p)) :
    ∀ i ch, ch ∈ mutGoPure f i l → P ch := by
  induction l with
  | nil => intro i ch hch; simp [mutGoPure] at hch
  | cons p rest ih =>
    intro i ch hch
    rcases (List.mem_cons.mp hch) with h | h
    · exact h ▸ hf i p (List.mem_cons_self p rest)
    · exact ih (fun j q hq => hf j q (List.mem_cons_of_mem p hq)) (i + 1) ch h

theorem getD_zip (l1 : List Char) :
    ∀ (l2 : List ℤ) (j : ℕ), j < l1.length → j < l2.length →
      (l1.zip l2).getD j ('A', 0) = (l1.getD j 'A', l2.getD j 0) := by
  induction l1 with
  | nil => intro l2 j h1 h2; simp at h1
  | cons a l1 ih =>
    intro l2 j h1 h2
    cases l2 with
    | nil => simp at h2
    | cons b l2 =>
      cases j with
      | zero => rfl
      | succ j =>
        simp only [List.zip_cons_cons, List.getD_cons_succ]
        exact ih l2 j (by simpa using h1) (by simpa using h2)

theorem mem_acgt_getD (l : List Char) (hsub : ∀ x ∈ l, x ∈ acgt) (n : ℕ) (d : Char)
    (hd : d ∈ acgt) : l.getD n d ∈ acgt := by
  by_cases h : n < l.length
  · rw [List.getD_eq_getElem l d h]
    exact hsub _ (List.getElem_mem h)
  · rw [List.getD_eq_default l d (le_of_not_lt h)]
    exact hd

theorem basicStep_eq_ok (u : ℕ → ℝ) (c : ℕ → Fin 3) (i : ℕ) (p : Char × ℤ)
    (hp : p.1 ∈ acgt) : basicStep u c i p = Except.ok (basicStepPure u c i p) := by
  rcases p with ⟨ch, q⟩
  have h : ∃ l, basic_nucl_choices ch = some l := by
    fin_cases hp <;> exact ⟨_, rfl⟩
  rcases h with ⟨l, hl⟩
  unfold basicStep basicStepPure
  by_cases hu : u i > phred_to_prob ((q : ℤ) : ℝ) <;> simp [hu, hl]

theorem kdeStep_eq_ok (sm : ℕ → List ℚ) (u : ℕ → ℝ) (c : ℕ → Fin 3) (i : ℕ) (p : Char × ℤ)
    (hp : p.1 ∈ acgt) : kdeStep sm u c i p = Except.ok (kdeStepPure sm u c i p) := by
  rcases p with ⟨ch, q⟩
  have h : ∃ pr, subst_matrix_to_choices (sm i) ch = some pr := by
    fin_cases hp <;> exact ⟨_, rfl⟩
  rcases h with ⟨pr, hpr⟩
  unfold kdeStep kdeStepPure
  by_cases hu : u i > phred_to_prob ((q : ℤ) : ℝ) <;> simp [hu, hpr]

theorem basicStepPure_mem (u : ℕ → ℝ) (c : ℕ → Fin 3) (i : ℕ) (p : Char × ℤ)
    (hp : p.1 ∈ acgt) : basicStepPure u c i p ∈ acgt := by
  obtain ⟨ch, q⟩ := p
  dsimp only at hp
  unfold basicStepPure
  dsimp only
  by_cases hu : u i > phred_to_prob ((q : ℤ) : ℝ)
  · rw [if_pos hu]
    refine mem_acgt_getD _ (fun x hx => ?_) _ _ hp
    revert hx
    fin_cases hp <;> revert x <;> decide
  · rw [if_neg hu]; exact hp

theorem basicStepPure_ne (u : ℕ → ℝ) (c : ℕ → Fin 3) (i : ℕ) (p : Char × ℤ)
    (hp : p.1 ∈ acgt) (hu : u i > phred_to_prob (p.2 : ℝ)) :
    basicStepPure u c i p ≠ p.1 := by
  obtain ⟨ch, q⟩ := p
  dsimp only at hp hu
  unfold basicStepPure
  dsimp only
  rw [if_pos hu]
  have hn3 : (c i).val < 3 := (c i).isLt
  revert hn3
  generalize (c i).val = n
  intro hn3
  fin_cases hp <;> interval_cases n <;> decide

theorem subst_choices_fst (v : List ℚ) (ch : Char) (h : ch ∈ acgt) :
    ((subst_matrix_to_choices v ch).getD ([], [])).1 = claim_targets ch := by
  fin_cases h <;> rfl

theorem kdeStepPure_mem (sm : ℕ → List ℚ) (u : ℕ → ℝ) (c : ℕ → Fin 3) (i : ℕ) (p : Char × ℤ)
    (hp : p.1 ∈ acgt) : kdeStepPure sm u c i p ∈ acgt := by
  obtain ⟨ch, q⟩ := p
  dsimp only at hp
  unfold kdeStepPure
  dsimp only
  by_cases hu : u i > phred_to_prob ((q : ℤ) : ℝ)
  · rw [if_pos hu, subst_choices_fst _ _ hp]
    refine mem_acgt_getD _ (fun x hx => ?_) _ _ hp
    revert hx
    fin_cases hp <;> revert x <;> decide
  · rw [if_neg hu]; exact hp

theorem kdeStepPure_ne (sm : ℕ → List ℚ) (u : ℕ → ℝ) (c : ℕ → Fin 3) (i : ℕ) (p : Char × ℤ)
    (hp : p.1 ∈ acgt) (hu : u i > phred_to_prob (p.2 : ℝ)) :
    kdeStepPure sm u c i p ≠ p.1 := by
  obtain ⟨ch, q⟩ := p
  dsimp only at hp hu
  unfold kdeStepPure
  dsimp only
  rw [if_pos hu, subst_choices_fst _ _ hp]
  have hn3 : (c i).val < 3 := (c i).isLt
  revert hn3
  generalize (c i).val = n
  intro hn3
  fin_cases hp <;> interval_cases n <;> decide

theorem mut_map_ok (step : ℕ → Char × ℤ → Except String Char) (f : ℕ → Char × ℤ → Char)
    (seq : List Char) (quals : List ℤ)
    (hstep : ∀ i p, p.1 ∈ acgt → step i p = Except.ok (f i p))
    (hA : ∀ ch ∈ seq, ch ∈ acgt) :
    (mutGo step 0 (seq.zip quals)).map (fun l => l ++ seq.drop quals.length)
      = Except.ok (mutGoPure f 0 (seq.zip quals) ++ seq.drop quals.length) := by
  rw [mutGo_eq_ok (seq.zip quals)
    (fun i p hp => hstep i p (hA p.1 (List.of_mem_zip hp).1)) 0]
  rfl

theorem mut_out_length (f : ℕ → Char × ℤ → Char) (seq : List Char) (quals : List ℤ) :
    (mutGoPure f 0 (seq.zip quals) ++ seq.drop quals.length).length = seq.length := by
  simp only [List.length_append, length_mutGoPure, List.length_zip, List.length_drop]
  omega

theorem mut_out_mem (f : ℕ → Char × ℤ → Char) (seq : List Char) (quals : List ℤ)
    (hf : ∀ i p, p.1 ∈ acgt → f i p ∈ acgt) (hA : ∀ ch ∈ seq, ch ∈ acgt) :
    ∀ ch ∈ mutGoPure f 0 (seq.zip quals) ++ seq.drop quals.length, ch ∈ acgt := by
  intro ch hch
  rcases List.mem_append.mp hch with h | h
  · exact mem_mutGoPure _ (fun i p hp => hf i p (hA p.1 (List.of_mem_zip hp).1)) 0 ch h
  · exact hA ch (List.drop_subset _ _ h)

theorem mut_out_getD (f : ℕ → Char × ℤ → Char) (seq : List Char) (quals : List ℤ)
    (i : ℕ) (h1 : i < seq.length) (h2 : i < quals.length) :
    (mutGoPure f 0 (seq.zip quals) ++ seq.drop quals.length).getD i 'X'
      = f i (seq.getD i 'A', quals.getD i 0) := by
  have hzi : i < (seq.zip quals).length := by rw [List.length_zip]; omega
  rw [List.getD_append _ _ _ _ (by rw [length_mutGoPure]; exact hzi),
    getD_mutGoPure f (seq.zip quals) 'X' 0 i hzi, Nat.zero_add,
    getD_zip seq quals i h1 h2]

theorem length_basic_gen_phred_scores (normal : ℝ → ℝ → ℕ → ℝ) (m : ℝ) :
    (BasicErrorModel.gen_phred_scores normal m).length = BasicErrorModel.read_length := by
  unfold BasicErrorModel.gen_phred_scores
  simp

theorem length_kde_gen_phred_scores (s : ℕ → ℕ) (hists : List (List ℝ × List ℝ)) :
    ∀ i, (KernelDensityErrorModel.gen_phred_scores s i hists).length = hists.length := by
  induction hists with
  | nil => intro i; rfl
  | cons h t ih => intro i; simp [KernelDensityErrorModel.gen_phred_scores, ih (i + 1)]

theorem kde_mut_sequence_forward (smf smr : ℕ → List ℚ) (u : ℕ → ℝ) (c : ℕ → Fin 3)
    (record : SeqRecord) :
    KernelDensityErrorModel.mut_sequence smf smr u c record "forward"
      = (mutGo (kdeStep smf u c) 0 (record.seq.zip record.phred_quality)).map
          (fun l => l ++ record.seq.drop record.phred_quality.length) := rfl

theorem kde_mut_sequence_reverse (smf smr : ℕ → List ℚ) (u : ℕ → ℝ) (c : ℕ → Fin 3)
    (record : SeqRecord) :
    KernelDensityErrorModel.mut_sequence smf smr u c record "reverse"
      = (mutGo (kdeStep smr u c) 0 (record.seq.zip record.phred_quality)).map
          (fun l => l ++ record.seq.drop record.phred_quality.length) := rfl

/-- C5: for both model variants, on an input record whose sequence is over
ATCG and whose quality list has the same length, `mut_sequence` succeeds and
returns a sequence of the same length consisting only of ATCG symbols. -/
theorem mut_sequence_length_alphabet (u : ℕ → ℝ) (c : ℕ → Fin 3)
    (smf smr : ℕ → List ℚ) (record : SeqRecord) (o : String)
    (hA : ∀ ch ∈ record.seq, ch ∈ acgt)
    (hlen : record.phred_quality.length = record.seq.length)
    (ho : o = "forward" ∨ o = "reverse") :
    (∃ out, BasicErrorModel.mut_sequence u c record o = Except.ok out ∧
      out.length = record.seq.length ∧ ∀ ch ∈ out, ch ∈ acgt) ∧
    (∃ out, KernelDensityErrorModel.mut_sequence smf smr u c record o = Except.ok out ∧
      out.length = record.seq.length ∧ ∀ ch ∈ out, ch ∈ acgt) := by
  constructor
  · refine ⟨mutGoPure (basicStepPure u c) 0 (record.seq.zip record.phred_quality)
        ++ record.seq.drop record.phred_quality.length, ?_, ?_, ?_⟩
    · unfold BasicErrorModel.mut_sequence
      exact mut_map_ok _ _ _ _ (fun i p hp => basicStep_eq_ok u c i p hp) hA
    · exact mut_out_length _ _ _
    · exact mut_out_mem _ _ _ (fun i p hp => basicStepPure_mem u c i p hp) hA
  · rcases ho with rfl | rfl
    · refine ⟨mutGoPure (kdeStepPure smf u c) 0 (record.seq.zip record.phred_quality)
          ++ record.seq.drop record.phred_quality.length, ?_, ?_, ?_⟩
      · rw [kde_mut_sequence_forward]
        exact mut_map_ok _ _ _ _ (fun i p hp => kdeStep_eq_ok smf u c i p hp) hA
      · exact mut_out_length _ _ _
      · exact mut_out_mem _ _ _ (fun i p hp => kdeStepPure_mem smf u c i p hp) hA
    · refine ⟨mutGoPure (kdeStepPure smr u c) 0 (record.seq.zip record.phred_quality)
          ++ record.seq.drop record.phred_quality.length, ?_, ?_, ?_⟩
      · rw [kde_mut_sequence_reverse]
        exact mut_map_ok _ _ _ _ (fun i p hp => kdeStep_eq_ok smr u c i p hp) hA
      · exact mut_out_length _ _ _
      · exact mut_out_mem _ _ _ (fun i p hp => kdeStepPure_mem smr u c i p hp) hA

/-- Witness for C5 at the concrete record `⟨['A','T'], [30, 30]⟩`. -/
theorem mut_sequence_length_alphabet_witness :
    (∀ ch ∈ (SeqRecord.mk ['A', 'T'] [30, 30]).seq, ch ∈ acgt) ∧
    (SeqRecord.mk ['A', 'T'] [30, 30]).phred_quality.length
        = (SeqRecord.mk ['A', 'T'] [30, 30]).seq.length ∧
    ((∃ out, BasicErrorModel.mut_sequence (fun _ => 0) (fun _ => 0)
          (SeqRecord.mk ['A', 'T'] [30, 30]) "forward" = Except.ok out ∧
        out.length = (SeqRecord.mk ['A', 'T'] [30, 30]).seq.length ∧ ∀ ch ∈ out, ch ∈ acgt) ∧
      (∃ out, KernelDensityErrorModel.mut_sequence (fun _ => List.replicate 16 1)
          (fun _ => List.replicate 16 1) (fun _ => 0) (fun _ => 0)
          (SeqRecord.mk ['A', 'T'] [30, 30]) "forward" = Except.ok out ∧
        out.length = (SeqRecord.mk ['A', 'T'] [30, 30]).seq.length ∧ ∀ ch ∈ out, ch ∈ acgt)) :=
  ⟨by decide, by decide,
    mut_sequence_length_alphabet (fun _ => 0) (fun _ => 0) (fun _ => List.replicate 16 1)
      (fun _ => List.replicate 16 1) (SeqRecord.mk ['A', 'T'] [30, 30]) "forward"
      (by decide) (by decide) (Or.inl rfl)⟩

/-- C6: for both model variants, whenever the uniform draw at a position
exceeds `phred_to_prob` of that position's quality, the base written at that
position differs from the original base. -/
theorem mut_sequence_no_self_subst (u : ℕ → ℝ) (c : ℕ → Fin 3)
    (smf smr : ℕ → List ℚ) (record : SeqRecord) (o : String) (i : ℕ)
    (hA : ∀ ch ∈ record.seq, ch ∈ acgt)
    (h1 : i < record.seq.length) (h2 : i < record.phred_quality.length)
    (hsub : u i > phred_to_prob ((record.phred_quality.getD i 0 : ℤ) : ℝ))
    (ho : o = "forward" ∨ o = "reverse") :
    (∃ out, BasicErrorModel.mut_sequence u c record o = Except.ok out ∧
      out.getD i 'X' ≠ record.seq.getD i 'X') ∧
    (∃ out, KernelDensityErrorModel.mut_sequence smf smr u c record o = Except.ok out ∧
      out.getD i 'X' ≠ record.seq.getD i 'X') := by
  have hseq : record.seq.getD i 'X' = record.seq.getD i 'A' := by
    rw [List.getD_eq_getElem _ _ h1, List.getD_eq_getElem _ _ h1]
  have hpmem : record.seq.getD i 'A' ∈ acgt := by
    rw [List.getD_eq_getElem _ _ h1]
    exact hA _ (List.getElem_mem h1)
  constructor
  · refine ⟨mutGoPure (basicStepPure u c) 0 (record.seq.zip record.phred_quality)
        ++ record.seq.drop record.phred_quality.length, ?_, ?_⟩
    · unfold BasicErrorModel.mut_sequence
      exact mut_map_ok _ _ _ _ (fun j p hp => basicStep_eq_ok u c j p hp) hA
    · rw [mut_out_getD _ _ _ i h1 h2, hseq]
      exact basicStepPure_ne u c i _ hpmem hsub
  · rcases ho with rfl | rfl
    · refine ⟨mutGoPure (kdeStepPure smf u c) 0 (record.seq.zip record.phred_quality)
          ++ record.seq.drop record.phred_quality.length, ?_, ?_⟩
      · rw [kde_mut_sequence_forward]
        exact mut_map_ok _ _ _ _ (fun j p hp => kdeStep_eq_ok smf u c j p hp) hA
      · rw [mut_out_getD _ _ _ i h1 h2, hseq]
        exact kdeStepPure_ne smf u c i _ hpmem hsub
    · refine ⟨mutGoPure (kdeStepPure smr u c) 0 (record.seq.zip record.phred_quality)
          ++ record.seq.drop record.phred_quality.length, ?_, ?_⟩
      · rw [kde_mut_sequence_reverse]
        exact mut_map_ok _ _ _ _ (fun j p hp => kdeStep_eq_ok smr u c j p hp) hA
      · rw [mut_out_getD _ _ _ i h1 h2, hseq]
        exact kdeStepPure_ne smr u c i _ hpmem hsub

/-- Witness for C6: at quality 10 with a uniform draw of 1 the draw exceeds
`phred_to_prob`, and the base written at position 0 differs from 'A'. -/
theorem mut_sequence_no_self_subst_witness :
    ((1 : ℝ) > phred_to_prob (((SeqRecord.mk ['A'] [10]).phred_quality.getD 0 0 : ℤ) : ℝ)) ∧
    ((∃ out, BasicErrorModel.mut_sequence (fun _ => 1) (fun _ => 0)
          (SeqRecord.mk ['A'] [10]) "forward" = Except.ok out ∧
        out.getD 0 'X' ≠ (SeqRecord.mk ['A'] [10]).seq.getD 0 'X') ∧
      (∃ out, KernelDensityErrorModel.mut_sequence (fun _ => List.replicate 16 1)
          (fun _ => List.replicate 16 1) (fun _ => 1) (fun _ => 0)
          (SeqRecord.mk ['A'] [10]) "forward" = Except.ok out ∧
        out.getD 0 'X' ≠ (SeqRecord.mk ['A'] [10]).seq.getD 0 'X')) := by
  have hs : (1 : ℝ) > phred_to_prob (((SeqRecord.mk ['A'] [10]).phred_quality.getD 0 0 : ℤ) : ℝ) := by
    have hpos : (0 : ℝ)
        < (10 : ℝ) ^ (-((((SeqRecord.mk ['A'] [10]).phred_quality.getD 0 0 : ℤ) : ℝ)) / 10) :=
      Real.rpow_pos_of_pos (by norm_num) _
    unfold phred_to_prob
    linarith
  exact ⟨hs, mut_sequence_no_self_subst (fun _ => 1) (fun _ => 0) (fun _ => List.replicate 16 1)
    (fun _ => List.replicate 16 1) (SeqRecord.mk ['A'] [10]) "forward" 0 (by decide) (by decide)
    (by decide) hs (Or.inl rfl)⟩

theorem kde_introduce_forward (qhf qhr : List (List ℝ × List ℝ)) (s : ℕ → ℕ)
    (record : SeqRecord) :
    KernelDensityErrorModel.introduce_error_scores qhf qhr s record "forward"
      = { record with phred_quality := KernelDensityErrorModel.gen_phred_scores s 0 qhf } := rfl

theorem kde_introduce_reverse (qhf qhr : List (List ℝ × List ℝ)) (s : ℕ → ℕ)
    (record : SeqRecord) :
    KernelDensityErrorModel.introduce_error_scores qhf qhr s record "reverse"
      = { record with phred_quality := KernelDensityErrorModel.gen_phred_scores s 0 qhr } := rfl

/-- C7: for both variants and both valid orientations the generated quality
list is a list of integers of length `read_length`: the constant 125 for the
parametric model, and the histogram sequence length (the loaded read length)
for the empirical model. -/
theorem introduce_error_scores_length (normal : ℝ → ℝ → ℕ → ℝ) (s : ℕ → ℕ)
    (rb rk : SeqRecord) (o : String) (ho : o = "forward" ∨ o = "reverse")
    (qhf qhr : List (List ℝ × List ℝ)) (read_length : ℕ)
    (hf : qhf.length = read_length) (hr : qhr.length = read_length) :
    (BasicErrorModel.introduce_error_scores normal rb o).phred_quality.length
        = BasicErrorModel.read_length ∧
      (KernelDensityErrorModel.introduce_error_scores qhf qhr s rk o).phred_quality.length
        = read_length := by
  constructor
  · show (BasicErrorModel.gen_phred_scores normal
        (phred_to_prob (BasicErrorModel.quality : ℝ))).length = BasicErrorModel.read_length
    exact length_basic_gen_phred_scores _ _
  · rcases ho with rfl | rfl
    · rw [kde_introduce_forward]
      show (KernelDensityErrorModel.gen_phred_scores s 0 qhf).length = read_length
      rw [length_kde_gen_phred_scores s qhf 0, hf]
    · rw [kde_introduce_reverse]
      show (KernelDensityErrorModel.gen_phred_scores s 0 qhr).length = read_length
      rw [length_kde_gen_phred_scores s qhr 0, hr]

/-- Witness for C7 with empty histogram lists and orientation "forward". -/
theorem introduce_error_scores_length_witness :
    (("forward" : String) = "forward" ∨ ("forward" : String) = "reverse") ∧
    ([] : List (List ℝ × List ℝ)).length = 0 ∧
    ((BasicErrorModel.introduce_error_scores (fun _ _ _ => 0)
          (SeqRecord.mk [] []) "forward").phred_quality.length = BasicErrorModel.read_length ∧
      (KernelDensityErrorModel.introduce_error_scores [] [] (fun _ => 0)
          (SeqRecord.mk [] []) "forward").phred_quality.length = 0) :=
  ⟨Or.inl rfl, rfl,
    introduce_error_scores_length (fun _ _ _ => 0) (fun _ => 0) (SeqRecord.mk [] [])
      (SeqRecord.mk [] []) "forward" (Or.inl rfl) [] [] 0 rfl rfl⟩

/-- C8: in the parametric model the orientation argument has no effect: with
the same record and the same random sources, any two orientation strings give
the same annotated record and the same mutated sequence. -/
theorem basic_orientation_independent (normal : ℝ → ℝ → ℕ → ℝ) (u : ℕ → ℝ) (c : ℕ → Fin 3)
    (record : SeqRecord) (o₁ o₂ : String) :
    BasicErrorModel.introduce_error_scores normal record o₁
        = BasicErrorModel.introduce_error_scores normal record o₂ ∧
      BasicErrorModel.mut_sequence u c record o₁
        = BasicErrorModel.mut_sequence u c record o₂ :=
  ⟨rfl, rfl⟩

/-- C9: `mut_sequence` of both variants operates on a fresh mutable copy of
`record.seq` and only reads the annotations, so after the call the record
(its sequence and its quality annotation) is unchanged. -/
theorem mut_sequence_preserves_record (u : ℕ → ℝ) (c : ℕ → Fin 3)
    (smf smr : ℕ → List ℚ) (record : SeqRecord) (o : String) :
    (BasicErrorModel.mut_sequence_effect u c record o).1 = record ∧
      (KernelDensityErrorModel.mut_sequence_effect smf smr u c record o).1 = record :=
  ⟨rfl, rfl⟩

/-- C3: with an orientation other than "forward"/"reverse" the empirical model
does not raise an `InvalidOrientationError`: `introduce_error_scores` only
prints and returns the record unchanged (no annotation, no exception), and
`mut_sequence` crashes with `UnboundLocalError` on a nonempty record, shown
here at a concrete input. -/
theorem orientation_sideways_fallthrough :
    (∀ (qhf qhr : List (List ℝ × List ℝ)) (s : ℕ → ℕ) (record : SeqRecord),
        KernelDensityErrorModel.introduce_error_scores qhf qhr s record "sideways" = record) ∧
      KernelDensityErrorModel.mut_sequence (fun _ => List.replicate 16 1)
          (fun _ => List.replicate 16 1) (fun _ => 0) (fun _ => 0)
          (SeqRecord.mk ['A'] [30]) "sideways" = Except.error "UnboundLocalError" := by
  refine ⟨fun qhf qhr s record => ?_, ?_⟩
  · unfold KernelDensityErrorModel.introduce_error_scores
    rw [if_neg (by decide), if_neg (by decide)]
  · rfl

/-- C4: on an all-zero substitution row the code reaches the division by the
zero sum instead of raising a dedicated error: in the `ℚ` model the division
by zero yields the junk probabilities `[0, 0, 0]` (numpy: NaN, Python int:
`ZeroDivisionError`), and in particular not a uniform fallback. -/
theorem zero_row_division_junk :
    subst_matrix_to_choices (List.replicate 16 0) 'A'
        = some (['T', 'C', 'G'], [0, 0, 0]) ∧
      subst_matrix_to_choices (List.replicate 16 0) 'A'
        ≠ some (['T', 'C', 'G'], [1 / 3, 1 / 3, 1 / 3]) := by
  have h : subst_matrix_to_choices (List.replicate 16 0) 'A'
      = some (['T', 'C', 'G'], [0, 0, 0]) := by
    norm_num [subst_matrix_to_choices, List.replicate]
  refine ⟨h, ?_⟩
  rw [h]
  norm_num

theorem take_three_drop (v : List ℚ) : ∀ j : ℕ, j + 3 ≤ v.length →
    (v.drop j).take 3 = [v.getD j 0, v.getD (j + 1) 0, v.getD (j + 2) 0] := by
  induction v with
  | nil => intro j h; simp at h
  | cons a w ih =>
    intro j h
    cases j with
    | zero =>
      rcases w with _ | ⟨b, w⟩
      · simp at h
      rcases w with _ | ⟨c2, w⟩
      · simp at h
      · rfl
    | succ j =>
      have h2 : j + 3 ≤ w.length := by
        simp only [List.length_cons] at h
        omega
      simpa only [List.drop_succ_cons, List.getD_cons_succ] using ih j h2

/-- C1 counterexample: reading the 16-element vector row-major over A,T,C,G as
the claim states, the probabilities computed for source base T are not the
normalized off-diagonal counts of the T row, and they change when only the
diagonal (T→T) entry at row-major index 5 changes. -/
theorem subst_matrix_rowmajor_cex :
    subst_matrix_to_choices cexRowT3 'T' ≠ some (layoutRowChoices rowMajorPos cexRowT3 'T') ∧
      subst_matrix_to_choices cexRowT1 'T' ≠ subst_matrix_to_choices cexRowT2 'T' := by
  have h3 : subst_matrix_to_choices cexRowT3 'T'
      = some (['A', 'C', 'G'], [1 / 2, 1 / 4, 1 / 4]) := by
    norm_num [subst_matrix_to_choices, cexRowT3]
    all_goals decide
  have hrm : layoutRowChoices rowMajorPos cexRowT3 'T'
      = (['A', 'C', 'G'], [1 / 3, 1 / 3, 1 / 3]) := by
    rw [show layoutRowChoices rowMajorPos cexRowT3 'T' = (['A', 'C', 'G'],
      List.map (fun cnt => cnt / ([1, 1, 1] : List ℚ).sum) ([1, 1, 1] : List ℚ)) from rfl]
    norm_num
  have h1 : subst_matrix_to_choices cexRowT1 'T'
      = some (['A', 'C', 'G'], [1 / 3, 1 / 3, 1 / 3]) := by
    norm_num [subst_matrix_to_choices, cexRowT1]
    all_goals decide
  have h2 : subst_matrix_to_choices cexRowT2 'T'
      = some (['A', 'C', 'G'], [1 / 2, 1 / 4, 1 / 4]) := by
    norm_num [subst_matrix_to_choices, cexRowT2]
    all_goals decide
  constructor
  · rw [h3, hrm]
    norm_num
  · rw [h1, h2]
    norm_num

/-- C1 (amended): for every 16-element count row, the probabilities computed
by `subst_matrix_to_choices` are the three off-diagonal counts of the source
base's block, normalized by their sum, under the layout that stores the
same-base count first in each block of four (`blockFirstPos`) — not under the
row-major layout: for sources T, C, G the slices used include the entries at
row-major diagonal indices 5, 10, 15 and omit indices 4, 8, 12. -/
theorem subst_matrix_to_choices_block_offdiag (v : List ℚ) (h : v.length = 16)
    (src : Char) (hs : src ∈ acgt) :
    subst_matrix_to_choices v src = some (layoutRowChoices blockFirstPos v src) := by
  have h1 := take_three_drop v 1 (by omega)
  have h5 := take_three_drop v 5 (by omega)
  have h9 := take_three_drop v 9 (by omega)
  have h13 : v.drop 13 = [v.getD 13 0, v.getD 14 0, v.getD 15 0] := by
    have ht : (v.drop 13).take 3 = v.drop 13 := by
      apply List.take_of_length_le
      rw [List.length_drop]
      omega
    rw [← ht, take_three_drop v 13 (by omega)]
  fin_cases hs
  · rw [show subst_matrix_to_choices v 'A' = some (['T', 'C', 'G'],
      ((v.drop 1).take 3).map (fun count => count / ((v.drop 1).take 3).sum)) from rfl,
      show layoutRowChoices blockFirstPos v 'A' = (['T', 'C', 'G'],
      (List.map (fun cnt => cnt / [v.getD 1 0, v.getD 2 0, v.getD 3 0].sum)
        [v.getD 1 0, v.getD 2 0, v.getD 3 0])) from rfl, h1]
  · rw [show subst_matrix_to_choices v 'T' = some (['A', 'C', 'G'],
      ((v.drop 5).take 3).map (fun count => count / ((v.drop 5).take 3).sum)) from rfl,
      show layoutRowChoices blockFirstPos v 'T' = (['A', 'C', 'G'],
      (List.map (fun cnt => cnt / [v.getD 5 0, v.getD 6 0, v.getD 7 0].sum)
        [v.getD 5 0, v.getD 6 0, v.getD 7 0])) from rfl, h5]
  · rw [show subst_matrix_to_choices v 'C' = some (['A', 'T', 'G'],
      ((v.drop 9).take 3).map (fun count => count / ((v.drop 9).take 3).sum)) from rfl,
      show layoutRowChoices blockFirstPos v 'C' = (['A', 'T', 'G'],
      (List.map (fun cnt => cnt / [v.getD 9 0, v.getD 10 0, v.getD 11 0].sum)
        [v.getD 9 0, v.getD 10 0, v.getD 11 0])) from rfl, h9]
  · rw [show subst_matrix_to_choices v 'G' = some (['A', 'T', 'C'],
      (v.drop 13).map (fun count => count / (v.drop 13).sum)) from rfl,
      show layoutRowChoices blockFirstPos v 'G' = (['A', 'T', 'C'],
      (List.map (fun cnt => cnt / [v.getD 13 0, v.getD 14 0, v.getD 15 0].sum)
        [v.getD 13 0, v.getD 14 0, v.getD 15 0])) from rfl, h13]

/-- Witness for the amended C1 theorem at a concrete row of ones. -/
theorem subst_matrix_to_choices_block_offdiag_witness :
    (List.replicate 16 (1 : ℚ)).length = 16 ∧ ('A' : Char) ∈ acgt ∧
      subst_matrix_to_choices (List.replicate 16 1) 'A'
        = some (layoutRowChoices blockFirstPos (List.replicate 16 1) 'A') :=
  ⟨by simp, by decide,
    subst_matrix_to_choices_block_offdiag (List.replicate 16 1) (by simp) 'A' (by decide)⟩
